import Mathlib

/-!
# Verification of `set_wallpaper.py` (dyn-wallpaper)

A shallow embedding of the logic of `src/set_wallpaper.py` into Lean 4,
together with theorems about the temporal interpolation mapping
(`get_current_images`), image loading and sorting (`init_images`), and the
blend step.

Real-valued quantities (timestamps in seconds, blend fractions) are modelled
as rationals.  Python exceptions (`IndexError`, `ValueError`,
`FileNotFoundError`) are modelled with `Option`: `none` means the call
raises.
-/

namespace DynWallpaper

/-- Python list indexing `l[i]` for an `int` index `i`: a negative index
counts from the end of the list; an index out of range raises `IndexError`
(modelled as `none`). -/
def pyIndex {α : Type} (l : List α) (i : ℤ) : Option α :=
  if 0 ≤ i ∧ i < (l.length : ℤ) then l.get? i.toNat
  else if i < 0 ∧ 0 ≤ (l.length : ℤ) + i then l.get? ((l.length : ℤ) + i).toNat
  else none

/-- The local variable `image_id = dusk_id * cursor / day_length` computed in
`get_current_images` (`src/set_wallpaper.py`, line 90).  This is the
real-valued position into the image sequence. -/
def image_id (cursor day_length : ℚ) (dusk_id : ℤ) : ℚ :=
  (dusk_id : ℚ) * cursor / day_length

/-- Embedding of `get_current_images(dawn_time, day_length, images, dusk_id)`
from `src/set_wallpaper.py`, lines 78-98.  The current time enters only
through `cursor = (now - dawn_time).total_seconds()`, so `cursor` is taken
directly as a rational parameter.  `images` is the loaded image list
(handles of opaque type `α`), `dusk_id` the configured dusk index (a Python
`int`).

Python source:
```
cursor = (now - dawn_time).total_seconds()
image_id = dusk_id * cursor / day_length
if image_id < 1 or image_id > len(images) - 1:
    # out of range, just pick last image
    last_image = images[len(images) - 1]
    return (last_image, last_image, 1)
img1 = images[math.floor(image_id)]
img2 = images[math.floor(image_id + 1)]
amount = image_id - math.floor(image_id)
return (img1, img2, amount)
```
A `none` result models an uncaught `IndexError`. -/
def get_current_images {α : Type} (cursor day_length : ℚ) (images : List α)
    (dusk_id : ℤ) : Option (α × α × ℚ) :=
  if image_id cursor day_length dusk_id < 1 ∨
      image_id cursor day_length dusk_id > (images.length : ℚ) - 1 then
    (pyIndex images ((images.length : ℤ) - 1)).map (fun last => (last, last, 1))
  else
    match pyIndex images ⌊image_id cursor day_length dusk_id⌋,
        pyIndex images ⌊image_id cursor day_length dusk_id + 1⌋ with
    | some img1, some img2 =>
        some (img1, img2,
          image_id cursor day_length dusk_id -
            (⌊image_id cursor day_length dusk_id⌋ : ℚ))
    | _, _ => none

/-! ## Basic facts about `pyIndex` -/

lemma pyIndex_eq_get? {α : Type} (l : List α) (i : ℤ) (h0 : 0 ≤ i)
    (h1 : i < (l.length : ℤ)) : pyIndex l i = l.get? i.toNat := by
  unfold pyIndex
  rw [if_pos ⟨h0, h1⟩]

lemma pyIndex_last {α : Type} (l : List α) (hne : l ≠ []) :
    pyIndex l ((l.length : ℤ) - 1) = some (l.getLast hne) := by
  have hlen : 0 < l.length := List.length_pos.mpr hne
  rw [pyIndex_eq_get? l _ (by omega) (by omega)]
  have ht : ((l.length : ℤ) - 1).toNat = l.length - 1 := by omega
  rw [ht, List.getLast_eq_getElem l hne, List.get?_eq_get (by omega)]
  rfl

/-! ## Evaluation lemmas for `get_current_images`

These drive both the general theorems and the concrete scenario
computations (kernel evaluation of `ℚ` is not available because rational
normalisation is not definitionally reducible, so concrete cases are
evaluated through `norm_num`). -/

lemma gci_clamp {α : Type} (c d : ℚ) (l : List α) (k : ℤ) (hne : l ≠ [])
    (h : image_id c d k < 1 ∨ image_id c d k > (l.length : ℚ) - 1) :
    get_current_images c d l k = some (l.getLast hne, l.getLast hne, 1) := by
  unfold get_current_images
  rw [if_pos h, pyIndex_last l hne]
  rfl

lemma gci_eval_interior {α : Type} (c d : ℚ) (l : List α) (k : ℤ) (n : ℤ)
    (a b : α)
    (hng : ¬(image_id c d k < 1 ∨ image_id c d k > (l.length : ℚ) - 1))
    (hfl : ⌊image_id c d k⌋ = n) (h0 : 0 ≤ n) (hn1 : n + 1 < (l.length : ℤ))
    (ha : l.get? n.toNat = some a) (hb : l.get? (n + 1).toNat = some b) :
    get_current_images c d l k = some (a, b, image_id c d k - (n : ℚ)) := by
  unfold get_current_images
  rw [if_neg hng]
  rw [Int.floor_add_one, hfl]
  rw [pyIndex_eq_get? l n h0 (by omega), pyIndex_eq_get? l (n + 1) (by omega) hn1,
    ha, hb]

lemma gci_eval_none {α : Type} (c d : ℚ) (l : List α) (k : ℤ) (n : ℤ)
    (hng : ¬(image_id c d k < 1 ∨ image_id c d k > (l.length : ℚ) - 1))
    (hfl : ⌊image_id c d k⌋ = n) (hn1 : (l.length : ℤ) ≤ n + 1) :
    get_current_images c d l k = none := by
  unfold get_current_images
  rw [if_neg hng]
  rw [Int.floor_add_one, hfl]
  have hb : pyIndex l (n + 1) = none := by
    unfold pyIndex
    rw [if_neg (by omega), if_neg (by omega)]
  rw [hb]
  cases pyIndex l n <;> rfl

lemma gci_eval_clamp {α : Type} (c d : ℚ) (l : List α) (k : ℤ) (a : α)
    (h : image_id c d k < 1 ∨ image_id c d k > (l.length : ℚ) - 1)
    (ha : pyIndex l ((l.length : ℤ) - 1) = some a) :
    get_current_images c d l k = some (a, a, 1) := by
  unfold get_current_images
  rw [if_pos h, ha]
  rfl

lemma gci_nil (c d : ℚ) {α : Type} (k : ℤ) :
    get_current_images c d ([] : List α) k = none := by
  unfold get_current_images
  rw [if_pos ?hcl]
  case hcl =>
    rcases lt_or_le (image_id c d k) 1 with hx | hx
    · exact Or.inl hx
    · refine Or.inr ?_
      simp only [List.length_nil, Nat.cast_zero]
      linarith
  rfl

/-- In the non-clamped interior (`1 ≤ image_id < N - 1`) the function returns
the two bracketing images at indices `⌊image_id⌋` and `⌊image_id⌋ + 1`
(both valid) and the fractional part as the blend amount. -/
lemma gci_interior {α : Type} (c d : ℚ) (l : List α) (k : ℤ)
    (h1 : 1 ≤ image_id c d k)
    (h2 : image_id c d k < (l.length : ℚ) - 1) :
    ∃ a b : α, l.get? (⌊image_id c d k⌋).toNat = some a ∧
      l.get? ((⌊image_id c d k⌋).toNat + 1) = some b ∧
      get_current_images c d l k =
        some (a, b, image_id c d k - (⌊image_id c d k⌋ : ℚ)) := by
  have hf1 : 1 ≤ ⌊image_id c d k⌋ := Int.le_floor.mpr (by exact_mod_cast h1)
  have hf2 : ⌊image_id c d k⌋ < (l.length : ℤ) - 1 := by
    apply Int.floor_lt.mpr
    push_cast
    linarith
  have hi : (⌊image_id c d k⌋).toNat < l.length := by omega
  have hi1 : (⌊image_id c d k⌋).toNat + 1 < l.length := by omega
  refine ⟨l.get ⟨_, hi⟩, l.get ⟨_, hi1⟩, List.get?_eq_get hi, List.get?_eq_get hi1, ?_⟩
  have heq := gci_eval_interior c d l k ⌊image_id c d k⌋ (l.get ⟨_, hi⟩) (l.get ⟨_, hi1⟩)
    (by push_neg; exact ⟨h1, by linarith⟩) rfl (by omega) (by omega)
    (List.get?_eq_get hi)
    (by rw [show (⌊image_id c d k⌋ + 1).toNat = (⌊image_id c d k⌋).toNat + 1 by omega]
        exact List.get?_eq_get hi1)
  exact heq

/-- Inversion principle: a successful result on the index list `List.range N`
comes either from the clamp branch (both components are `N - 1`) or from the
interior branch (components `⌊image_id⌋` and `⌊image_id⌋ + 1 < N`). -/
lemma gci_range_inv (c d : ℚ) (N : ℕ) (k : ℤ) (i j : ℕ) (f : ℚ)
    (h : get_current_images c d (List.range N) k = some (i, j, f)) :
    ((image_id c d k < 1 ∨ image_id c d k > (N : ℚ) - 1) ∧ 1 ≤ N ∧
        i = N - 1 ∧ j = N - 1) ∨
      (1 ≤ image_id c d k ∧ image_id c d k ≤ (N : ℚ) - 1 ∧
        i = (⌊image_id c d k⌋).toNat ∧ j = i + 1 ∧ j < N) := by
  unfold get_current_images at h
  simp only [List.length_range] at h
  by_cases hcl : image_id c d k < 1 ∨ image_id c d k > (N : ℚ) - 1
  · rw [if_pos hcl] at h
    rcases Nat.eq_zero_or_pos N with h0 | h0
    · subst h0
      simp only [List.range_zero] at h
      have hz : pyIndex ([] : List ℕ) (((0 : ℕ) : ℤ) - 1) = none := rfl
      rw [hz] at h
      simp at h
    · left
      have hne : List.range N ≠ [] := by
        simp only [ne_eq, List.range_eq_nil]
        omega
      have hlast : pyIndex (List.range N) ((N : ℤ) - 1) = some (N - 1) := by
        rw [show ((N : ℤ)) = (((List.range N).length : ℤ)) by simp,
          pyIndex_last (List.range N) hne]
        congr 1
        rw [List.getLast_eq_getElem]
        simp
      rw [hlast] at h
      have h10 := Option.some_inj.mp
        (show some ((N - 1 : ℕ), (N - 1 : ℕ), (1 : ℚ)) = some (i, j, f) from h)
      exact ⟨hcl, h0, (congrArg Prod.fst h10).symm,
        (congrArg (fun p => p.2.1) h10).symm⟩
  · rw [if_neg hcl] at h
    push_neg at hcl
    obtain ⟨h1, h2⟩ := hcl
    right
    have hf1 : 1 ≤ ⌊image_id c d k⌋ := Int.le_floor.mpr (by exact_mod_cast h1)
    have hf2 : ⌊image_id c d k⌋ ≤ (N : ℤ) - 1 := by
      have hm := Int.floor_mono h2
      rwa [show ((N : ℚ) - 1) = (((N : ℤ) - 1 : ℤ) : ℚ) by push_cast; ring,
        Int.floor_intCast] at hm
    rw [Int.floor_add_one] at h
    rw [pyIndex_eq_get? _ _ (by omega) (by simp only [List.length_range]; omega),
      List.get?_range (by omega)] at h
    by_cases hlt : ⌊image_id c d k⌋ + 1 < (N : ℤ)
    · rw [pyIndex_eq_get? _ _ (by omega) (by simp only [List.length_range]; omega),
        List.get?_range (by omega)] at h
      have h10 := Option.some_inj.mp
        (show some (((⌊image_id c d k⌋).toNat : ℕ),
            ((⌊image_id c d k⌋ + 1).toNat : ℕ),
            image_id c d k - ((⌊image_id c d k⌋ : ℤ) : ℚ)) = some (i, j, f) from h)
      have hi := (congrArg Prod.fst h10).symm
      have hj := (congrArg (fun p => p.2.1) h10).symm
      simp only at hi hj
      refine ⟨h1, h2, hi, ?_, ?_⟩
      · rw [hi, hj]
        omega
      · rw [hj]
        omega
    · have hnone : pyIndex (List.range N) (⌊image_id c d k⌋ + 1) = none := by
        unfold pyIndex
        rw [if_neg (by simp only [List.length_range]; omega),
          if_neg (by simp only [List.length_range]; omega)]
      rw [hnone] at h
      exact absurd (show (none : Option (ℕ × ℕ × ℚ)) = some (i, j, f) from h)
        (by simp)

/-! ## Claims about `get_current_images` -/

/-- Claim C1, counterexample.  With 4 images, `dusk_index = 1`,
`day_length = 1` and `cursor = 5/2`, the position `5/2` is outside the
interval `[1, N-2] = [1, 2]`, yet `get_current_images` does **not** return
`(images[N-1], images[N-1], 1)`: the code only clamps for
`position < 1` or `position > N - 1`, so at position `5/2` it interpolates
between `images[2]` and `images[3]`. -/
theorem claim1_counterexample :
    ((4 : ℚ) - 2 < image_id (5/2) 1 1 ∧ image_id (5/2) 1 1 ≤ (4 : ℚ) - 1) ∧
      get_current_images (5/2) 1 (List.range 4) 1 ≠ some (3, 3, 1) := by
  have hx : image_id (5/2) 1 1 = 5/2 := by unfold image_id; norm_num
  refine ⟨⟨by rw [hx]; norm_num, by rw [hx]; norm_num⟩, ?_⟩
  have heq := gci_eval_interior (5/2) 1 (List.range 4) 1 2 2 3
    (by rw [hx]; push_neg; simp only [List.length_range]; norm_num)
    (by rw [hx]; exact Int.floor_eq_iff.mpr (by norm_num))
    (by norm_num) (by simp only [List.length_range]; norm_num) (by rfl) (by rfl)
  rw [heq]
  simp

/-- Claim C1, amended: the clamp branch fires exactly when
`position < 1` or `position > N - 1` (not `N - 2`); in that case the
function returns `(images[N-1], images[N-1], 1)`. -/
theorem claim1_clamp_amended {α : Type} (c d : ℚ) (l : List α) (k : ℤ)
    (hne : l ≠ []) (hd : 0 < d) (hk0 : 0 ≤ k) (hk1 : k ≤ (l.length : ℤ) - 1)
    (h : image_id c d k < 1 ∨ image_id c d k > (l.length : ℚ) - 1) :
    get_current_images c d l k = some (l.getLast hne, l.getLast hne, 1) :=
  gci_clamp c d l k hne h

/-- Witness for C1 (amended): 3 images, `dusk_index = 1`, `day_length = 1`,
`cursor = 99`: position `99 > 2`, so the last image is returned twice with
fraction 1. -/
theorem claim1_witness :
    get_current_images 99 1 (List.range 3) 1 = some (2, 2, 1) := by
  have h := claim1_clamp_amended 99 1 (List.range 3) 1
    (by simp) (by norm_num) (by norm_num)
    (by simp only [List.length_range]; norm_num)
    (Or.inr (by
      unfold image_id
      simp only [List.length_range]
      norm_num))
  rw [h]
  rfl

/-- Claim C2 is violated by the code (code bug): with 2 images,
`dusk_index = 1` (within `[0, N-1]`), `day_length = 1` and `cursor = 1`,
the position is exactly `1 = N - 1`; the clamp guard does not fire
(`1 < 1` and `1 > 1` are both false), and the interior branch evaluates
`images[floor(1 + 1)] = images[2]`, an out-of-range access
(`IndexError`, modelled as `none`).  So the index used can exceed `N - 1`
and the function does not always return two handles. -/
theorem claim2_index_error :
    ¬(image_id 1 1 1 < 1 ∨ image_id 1 1 1 > (2 : ℚ) - 1) ∧
      get_current_images 1 1 (List.range 2) 1 = none := by
  have hx : image_id 1 1 1 = 1 := by unfold image_id; norm_num
  refine ⟨by rw [hx]; push_neg; norm_num, ?_⟩
  exact gci_eval_none 1 1 (List.range 2) 1 1
    (by rw [hx]; push_neg; simp only [List.length_range]; norm_num)
    (by rw [hx]; exact Int.floor_intCast 1)
    (by simp only [List.length_range]; norm_num)

/-- Claim C3: whenever the position lies in the spec's interpolatable
interior `[1, N-2]`, the function returns `(images[i], images[i+1],
position - i)` with `i = ⌊position⌋`, and both indices are valid. -/
theorem claim3_interior {α : Type} (c d : ℚ) (l : List α) (k : ℤ)
    (hd : 0 < d) (h1 : 1 ≤ image_id c d k)
    (h2 : image_id c d k ≤ (l.length : ℚ) - 2) :
    ∃ a b : α, l.get? (⌊image_id c d k⌋).toNat = some a ∧
      l.get? ((⌊image_id c d k⌋).toNat + 1) = some b ∧
      get_current_images c d l k =
        some (a, b, image_id c d k - (⌊image_id c d k⌋ : ℚ)) :=
  gci_interior c d l k h1 (by linarith)

/-- Shared concrete evaluation: the spec's noon scenario.  `dawn = 08:00`,
`now = 12:00` gives `cursor = 14400`; `day_length = 36000`, 16 images,
`dusk_index = 13`: position `13 * 14400 / 36000 = 26/5 = 5.2`, result
`(images[5], images[6], 1/5)`. -/
lemma eval_noon :
    get_current_images 14400 36000 (List.range 16) 13 = some (5, 6, 1/5) := by
  have hx : image_id 14400 36000 13 = 26/5 := by unfold image_id; norm_num
  have heq := gci_eval_interior 14400 36000 (List.range 16) 13 5 5 6
    (by rw [hx]; push_neg; simp only [List.length_range]; norm_num)
    (by rw [hx]; exact Int.floor_eq_iff.mpr (by norm_num))
    (by norm_num) (by simp only [List.length_range]; norm_num) (by rfl) (by rfl)
  rw [heq, hx]
  norm_num

/-- Witness for C3: the spec's noon scenario instantiates the theorem, and
the resulting pair is `(images[5], images[6], 1/5)` at position `26/5`. -/
theorem claim3_witness :
    (∃ a b : ℕ, (List.range 16).get? (⌊image_id 14400 36000 13⌋).toNat = some a ∧
      (List.range 16).get? ((⌊image_id 14400 36000 13⌋).toNat + 1) = some b ∧
      get_current_images 14400 36000 (List.range 16) 13 =
        some (a, b, image_id 14400 36000 13 - (⌊image_id 14400 36000 13⌋ : ℚ))) ∧
    get_current_images 14400 36000 (List.range 16) 13 = some (5, 6, 1/5) :=
  ⟨claim3_interior 14400 36000 (List.range 16) 13 (by norm_num)
      (by unfold image_id; norm_num)
      (by unfold image_id; simp only [List.length_range]; norm_num),
    eval_noon⟩

/-- Claim C4, counterexample.  3 images, `dusk_index = 1`, `day_length = 1`.
At `cursor = 1/2` the position `1/2 < 1` triggers the clamp, returning the
**last** image pair `(2, 2)`; at the larger `cursor = 3/2` the interior
branch returns `(1, 2)`.  The first returned index drops from 2 to 1, so
the index pair is not pointwise monotonic in the cursor. -/
theorem claim4_counterexample :
    ((1 : ℚ)/2 ≤ 3/2) ∧
      get_current_images ((1 : ℚ)/2) 1 (List.range 3) 1 = some (2, 2, 1) ∧
      get_current_images ((3 : ℚ)/2) 1 (List.range 3) 1 = some (1, 2, 1/2) ∧
      ¬((2 : ℕ) ≤ 1 ∧ (2 : ℕ) ≤ 2) := by
  have hx1 : image_id (1/2) 1 1 = 1/2 := by unfold image_id; norm_num
  have hx2 : image_id (3/2) 1 1 = 3/2 := by unfold image_id; norm_num
  refine ⟨by norm_num, ?_, ?_, by omega⟩
  · exact gci_eval_clamp (1/2) 1 (List.range 3) 1 2
      (Or.inl (by rw [hx1]; norm_num)) (by rfl)
  · have heq := gci_eval_interior (3/2) 1 (List.range 3) 1 1 1 2
      (by rw [hx2]; push_neg; simp only [List.length_range]; norm_num)
      (by rw [hx2]; exact Int.floor_eq_iff.mpr (by norm_num))
      (by norm_num) (by simp only [List.length_range]; norm_num) (by rfl) (by rfl)
    rw [heq, hx2]
    norm_num

/-- Claim C4, amended: for cursors **at or past the lower clamp threshold**
(`position ≥ 1`) the returned index pair is pointwise monotonic in the
cursor (stated on the index list `List.range N`, where a returned handle is
its own index).  The restriction `1 ≤ image_id` is forced by the
counterexample: before dawn the code returns the *last* image, which is
above any interior index. -/
theorem claim4_monotone (c1 c2 d : ℚ) (N : ℕ) (k : ℤ) (i1 j1 i2 j2 : ℕ)
    (f1 f2 : ℚ) (hd : 0 < d) (hk : 0 ≤ k) (hc : c1 ≤ c2)
    (hlo : 1 ≤ image_id c1 d k)
    (h1 : get_current_images c1 d (List.range N) k = some (i1, j1, f1))
    (h2 : get_current_images c2 d (List.range N) k = some (i2, j2, f2)) :
    i1 ≤ i2 ∧ j1 ≤ j2 := by
  have hmono : image_id c1 d k ≤ image_id c2 d k := by
    unfold image_id
    have hkc : (k : ℚ) * c1 ≤ (k : ℚ) * c2 :=
      mul_le_mul_of_nonneg_left hc (by exact_mod_cast hk)
    exact (div_le_div_right hd).mpr hkc
  rcases gci_range_inv c1 d N k i1 j1 f1 h1 with
    ⟨hcl1, hN1, hi1, hj1⟩ | ⟨ha1, hb1, hi1, hj1, hjN1⟩
  · -- the first call clamped; with position ≥ 1 this forces position > N - 1,
    -- hence the second call clamps as well
    rcases hcl1 with hlt | hgt
    · linarith
    · rcases gci_range_inv c2 d N k i2 j2 f2 h2 with
        ⟨-, -, hi2, hj2⟩ | ⟨-, hb2, -, -, -⟩
      · subst hi1; subst hj1; subst hi2; subst hj2; exact ⟨le_refl _, le_refl _⟩
      · linarith
  · rcases gci_range_inv c2 d N k i2 j2 f2 h2 with
      ⟨hcl2, hN2, hi2, hj2⟩ | ⟨ha2, hb2, hi2, hj2, hjN2⟩
    · subst hi2; subst hj2
      constructor <;> omega
    · have hff : ⌊image_id c1 d k⌋ ≤ ⌊image_id c2 d k⌋ := Int.floor_mono hmono
      have hf0 : 1 ≤ ⌊image_id c1 d k⌋ := Int.le_floor.mpr (by exact_mod_cast ha1)
      subst hi1; subst hi2
      constructor <;> omega

/-- Witness for C4 (amended): `d = 1`, `k = 1`, 3 images; cursors `3/2 ≤ 5/2`
give index pairs `(1, 2)` and `(2, 2)`, which are pointwise ordered. -/
theorem claim4_witness :
    get_current_images ((3 : ℚ)/2) 1 (List.range 3) 1 = some (1, 2, 1/2) ∧
      get_current_images ((5 : ℚ)/2) 1 (List.range 3) 1 = some (2, 2, 1) ∧
      ((1 : ℕ) ≤ 2 ∧ (2 : ℕ) ≤ 2) := by
  have hx2 : image_id (3/2) 1 1 = 3/2 := by unfold image_id; norm_num
  have hx3 : image_id (5/2) 1 1 = 5/2 := by unfold image_id; norm_num
  have h1 : get_current_images ((3 : ℚ)/2) 1 (List.range 3) 1 = some (1, 2, 1/2) := by
    have heq := gci_eval_interior (3/2) 1 (List.range 3) 1 1 1 2
      (by rw [hx2]; push_neg; simp only [List.length_range]; norm_num)
      (by rw [hx2]; exact Int.floor_eq_iff.mpr (by norm_num))
      (by norm_num) (by simp only [List.length_range]; norm_num) (by rfl) (by rfl)
    rw [heq, hx2]
    norm_num
  have h2 : get_current_images ((5 : ℚ)/2) 1 (List.range 3) 1 = some (2, 2, 1) :=
    gci_eval_clamp (5/2) 1 (List.range 3) 1 2
      (Or.inr (by rw [hx3]; simp only [List.length_range]; norm_num)) (by rfl)
  exact ⟨h1, h2, claim4_monotone (3/2) (5/2) 1 3 1 1 2 2 2 (1/2) 1
    (by norm_num) (by norm_num) (by norm_num) (by rw [hx2]; norm_num) h1 h2⟩

/-- Claim C5: whenever `get_current_images` returns, the returned fraction
lies in `[0, 1]`; and when the position additionally lies in the
non-clamped branch (`1 ≤ position ≤ N - 1`), the fraction lies in
`[0, 1)`. -/
theorem claim5_fraction_range {α : Type} (c d : ℚ) (l : List α) (k : ℤ)
    (a b : α) (f : ℚ) (hd : 0 < d) (hk0 : 0 ≤ k)
    (hk1 : k ≤ (l.length : ℤ) - 1)
    (h : get_current_images c d l k = some (a, b, f)) :
    (0 ≤ f ∧ f ≤ 1) ∧
      (1 ≤ image_id c d k ∧ image_id c d k ≤ (l.length : ℚ) - 1 → f < 1) := by
  by_cases hcl : image_id c d k < 1 ∨ image_id c d k > (l.length : ℚ) - 1
  · have hne : l ≠ [] := by
      rintro rfl
      rw [gci_nil c d k] at h
      exact absurd h (by simp)
    rw [gci_clamp c d l k hne hcl] at h
    have h10 := Option.some_inj.mp h
    have hf : (1 : ℚ) = f := congrArg (fun p => p.2.2) h10
    refine ⟨⟨by rw [← hf]; norm_num, by rw [← hf]⟩, fun hint => ?_⟩
    rcases hcl with hx | hx
    · linarith [hint.1]
    · linarith [hint.2]
  · push_neg at hcl
    obtain ⟨h1, h2⟩ := hcl
    by_cases hx : image_id c d k < (l.length : ℚ) - 1
    · obtain ⟨a1, b1, -, -, heq⟩ := gci_interior c d l k h1 hx
      rw [heq] at h
      have h10 := Option.some_inj.mp h
      have hf : image_id c d k - (⌊image_id c d k⌋ : ℚ) = f :=
        congrArg (fun p => p.2.2) h10
      have hfl := Int.floor_le (image_id c d k)
      have hfu := Int.lt_floor_add_one (image_id c d k)
      refine ⟨⟨by rw [← hf]; linarith, by rw [← hf]; linarith⟩,
        fun _ => by rw [← hf]; linarith⟩
    · have hxx : image_id c d k = (l.length : ℚ) - 1 := le_antisymm h2 (not_lt.mp hx)
      have hnone := gci_eval_none c d l k ((l.length : ℤ) - 1)
        (by push_neg; exact ⟨h1, h2⟩)
        (by rw [hxx, show ((l.length : ℚ) - 1) = (((l.length : ℤ) - 1 : ℤ) : ℚ) by
              push_cast; ring]
            exact Int.floor_intCast _)
        (by omega)
      rw [hnone] at h
      exact absurd h (by simp)

/-- Witness for C5: the noon scenario returns fraction `1/5`, which is in
`[0, 1]`, and in `[0, 1)` since position `26/5` is interior. -/
theorem claim5_witness :
    ((0 : ℚ) ≤ 1/5 ∧ (1 : ℚ)/5 ≤ 1) ∧
      (1 ≤ image_id 14400 36000 13 ∧
        image_id 14400 36000 13 ≤ ((List.range 16).length : ℚ) - 1 →
        (1 : ℚ)/5 < 1) :=
  claim5_fraction_range 14400 36000 (List.range 16) 13 5 6 (1/5)
    (by norm_num) (by norm_num) (by simp only [List.length_range]; norm_num)
    eval_noon

/-- Claim C6: at or before dawn (`cursor ≤ 0`, nonnegative dusk index,
positive day length) the function does not raise: the position is
nonpositive, hence below 1, and the defined clamp fallback
`(images[N-1], images[N-1], 1)` is returned. -/
theorem claim6_before_dawn {α : Type} (c d : ℚ) (l : List α) (k : ℤ)
    (hne : l ≠ []) (hc : c ≤ 0) (hk : 0 ≤ k) (hd : 0 < d) :
    get_current_images c d l k = some (l.getLast hne, l.getLast hne, 1) := by
  apply gci_clamp
  left
  unfold image_id
  have hkc : (k : ℚ) * c ≤ 0 :=
    mul_nonpos_iff.mpr (Or.inl ⟨by exact_mod_cast hk, hc⟩)
  rw [div_lt_one hd]
  linarith

/-- Witness for C6: the spec's dawn scenario.  `now = dawn = 08:00` gives
`cursor = 0`; `day_length = 36000`, 16 images, `dusk_index = 13`: the
result is `(images[15], images[15], 1)`. -/
theorem claim6_witness :
    get_current_images 0 36000 (List.range 16) 13 = some (15, 15, 1) := by
  rw [claim6_before_dawn 0 36000 (List.range 16) 13 (by simp) (le_refl 0)
    (by norm_num) (by norm_num)]
  rfl

/-! ## `init_images`: selection and numeric sorting of image files

`init_images(folder, set_cmd)` (`src/set_wallpaper.py`, lines 22-44) lists
the folder, keeps names containing `jpeg`, `jpg` or `png` as a substring,
sorts them by `int(re.sub(r'[^0-9]*', "", f))` (the digits of the name
parsed as an integer; Python's `list.sort` is stable and computes every key
before reordering), and, if a set-wallpaper command is configured, indexes
the middle element `image_paths[int(len(image_paths)/2)]`.

The folder listing is modelled as `Option (List String)` (`none` models a
missing folder: `os.listdir` raises `FileNotFoundError`); `set_cmd` is the
truthiness of the configured command string.  `Image.open` is an external
image codec call and is not modelled; the returned value is the ordered
list of selected file names, which fixes the order of the opened handles. -/

/-- Python's substring test `pat in s` on strings, over the character
lists. -/
def containsSub (pat s : List Char) : Bool :=
  s.tails.any fun t => pat.isPrefixOf t

/-- The selection predicate of `init_images` (line 31):
`'jpeg' in f or 'jpg' in f or 'png' in f`. -/
def isImageName (f : String) : Bool :=
  containsSub "jpeg".data f.data || containsSub "jpg".data f.data ||
    containsSub "png".data f.data

/-- The digit characters of a filename, in order: the result of
`re.sub(r'[^0-9]*', "", f)` (line 35), which deletes every non-digit
character. -/
def digitsOf (f : String) : List Char :=
  f.data.filter fun c => c.isDigit

/-- Parse a digit string as a natural number (what Python's `int` does on a
nonempty string of digits). -/
def digitsToNat (ds : List Char) : ℕ :=
  ds.foldl (fun n c => 10 * n + (c.toNat - 48)) 0

/-- The numeric sort key `int(re.sub(r'[^0-9]*', "", f))` (line 35).
Python's `int("")` raises `ValueError`, modelled as `none`, so the key is
only defined for names containing at least one digit. -/
def sortKey (f : String) : Option ℕ :=
  if digitsOf f = [] then none else some (digitsToNat (digitsOf f))

/-- Total version of the numeric key (defaulting to 0 on a digit-less
name); agrees with `sortKey` whenever the latter is defined. -/
def sortKeyD (f : String) : ℕ :=
  digitsToNat (digitsOf f)

/-- Comparison by numeric key, the order used by
`image_paths.sort(key=...)`. -/
def pathLe (f g : String) : Prop :=
  sortKeyD f ≤ sortKeyD g

instance : DecidableRel pathLe :=
  fun f g => Nat.decLe (sortKeyD f) (sortKeyD g)

instance : IsTotal String pathLe :=
  ⟨fun f g => le_total (sortKeyD f) (sortKeyD g)⟩

instance : IsTrans String pathLe :=
  ⟨fun _ _ _ hfg hgh => le_trans hfg hgh⟩

/-- `image_paths.sort(key=lambda f: int(re.sub(r'[^0-9]*', "", f)))`
(line 35).  Python's sort computes the key of every element (raising
`ValueError` — `none` — if any name has no digits) and then sorts stably
by key; a stable sort by a total key is insertion sort with the
key-comparison relation. -/
def sortedPaths (paths : List String) : Option (List String) :=
  if paths.all (fun f => (sortKey f).isSome) then
    some (paths.insertionSort pathLe)
  else none

/-- Embedding of `init_images(folder, set_cmd)` (lines 22-44).  `listing`
is the folder listing (`none`: the folder is missing and `os.listdir`
raises); `set_cmd` is whether a set-wallpaper command string was
configured (it is used only through its truthiness).  When `set_cmd` is
truthy the code indexes `image_paths[int(len(image_paths)/2)]` to show an
initial wallpaper, which raises `IndexError` on an empty selection.  The
result is the ordered list of selected file names (`none`: some exception
escaped). -/
def init_images (listing : Option (List String)) (set_cmd : Bool) :
    Option (List String) :=
  match listing with
  | none => none
  | some files =>
      match sortedPaths (files.filter fun f => isImageName f) with
      | none => none
      | some image_paths =>
          if set_cmd ∧ (pyIndex image_paths ((image_paths.length / 2 : ℕ) : ℤ)).isNone
          then none
          else some image_paths

/-- Substring containment is equivalent to a three-way split of the
character list. -/
lemma containsSub_iff (pat s : List Char) :
    containsSub pat s = true ↔ ∃ p q, s = p ++ pat ++ q := by
  unfold containsSub
  rw [List.any_eq_true]
  constructor
  · rintro ⟨t, ht, hp⟩
    rw [List.mem_tails] at ht
    rw [List.isPrefixOf_iff_prefix] at hp
    obtain ⟨q, hq⟩ := hp
    obtain ⟨p, hpre⟩ := ht
    exact ⟨p, q, by rw [← hpre, ← hq, List.append_assoc]⟩
  · rintro ⟨p, q, rfl⟩
    refine ⟨pat ++ q, ?_, ?_⟩
    · rw [List.mem_tails]
      exact ⟨p, by rw [List.append_assoc]⟩
    · rw [List.isPrefixOf_iff_prefix]
      exact ⟨q, rfl⟩

/-- A successful `init_images` returns exactly the stably key-sorted
selection. -/
lemma init_images_some_eq (listing : List String) (sc : Bool)
    (out : List String) (h : init_images (some listing) sc = some out) :
    out = (listing.filter fun f => isImageName f).insertionSort pathLe := by
  have h0 : (match sortedPaths (listing.filter fun f => isImageName f) with
      | none => none
      | some image_paths =>
          if sc = true ∧
              (pyIndex image_paths ((image_paths.length / 2 : ℕ) : ℤ)).isNone = true
          then none
          else some image_paths) = some out := h
  cases hsp : sortedPaths (listing.filter fun f => isImageName f) with
  | none =>
      rw [hsp] at h0
      exact absurd (show (none : Option (List String)) = some out from h0) (by simp)
  | some ip =>
      rw [hsp] at h0
      have hip : ip = (listing.filter fun f => isImageName f).insertionSort pathLe := by
        unfold sortedPaths at hsp
        by_cases hall :
            ((listing.filter fun f => isImageName f).all fun f => (sortKey f).isSome) = true
        · rw [if_pos hall] at hsp
          exact (Option.some_inj.mp hsp).symm
        · rw [if_neg hall] at hsp
          exact absurd hsp (by simp)
      have h1 : (if sc = true ∧ (pyIndex ip ((ip.length / 2 : ℕ) : ℤ)).isNone = true
          then none
          else some ip) = some out := h0
      by_cases hcond : sc = true ∧ (pyIndex ip ((ip.length / 2 : ℕ) : ℤ)).isNone = true
      · rw [if_pos hcond] at h1
        exact absurd h1 (by simp)
      · rw [if_neg hcond] at h1
        rw [← Option.some_inj.mp h1]
        exact hip

/-! ## Claims about `init_images` -/

/-- Claim C7, counterexample.  The two names `b1.png` and `a1.png` share
the numeric key 1, yet `init_images` raises no error: it silently returns
them in the original listing order (the sort is stable), so duplicate keys
are **not** flagged as a configuration error. -/
theorem claim7_counterexample :
    sortKey "b1.png" = sortKey "a1.png" ∧
      init_images (some ["b1.png", "a1.png"]) false = some ["b1.png", "a1.png"] := by
  constructor
  · rfl
  · rfl

/-- Claim C7, amended: a successful `init_images` returns the selected
names in ascending order of the numeric key extracted from the digits of
each name, and this order is strictly ascending — a deterministic total
order — whenever no two selected names share a key.  (Duplicate keys are
not flagged; the stable sort keeps the listing order among equal keys.) -/
theorem claim7_sorted (listing : List String) (sc : Bool) (out : List String)
    (h : init_images (some listing) sc = some out) :
    out.Pairwise (fun f g => sortKeyD f ≤ sortKeyD g) ∧
      ((listing.filter fun f => isImageName f).Pairwise
          (fun f g => sortKeyD f ≠ sortKeyD g) →
        out.Pairwise (fun f g => sortKeyD f < sortKeyD g)) := by
  have hout := init_images_some_eq listing sc out h
  subst hout
  have hsorted :
      ((listing.filter fun f => isImageName f).insertionSort pathLe).Pairwise
        (fun f g => sortKeyD f ≤ sortKeyD g) :=
    List.sorted_insertionSort pathLe _
  refine ⟨hsorted, fun hdist => ?_⟩
  have hperm := List.perm_insertionSort pathLe (listing.filter fun f => isImageName f)
  have hne :
      ((listing.filter fun f => isImageName f).insertionSort pathLe).Pairwise
        (fun f g => sortKeyD f ≠ sortKeyD g) :=
    (List.Perm.pairwise_iff (fun hxy he => hxy he.symm) hperm).mpr hdist
  exact (hsorted.and hne).imp fun hab => lt_of_le_of_ne hab.1 hab.2

/-- Witness for C7 (amended): listing `["img2.png", "img10.png"]` has keys
2 and 10; the returned order is numerically ascending (lexicographic order
would have reversed it). -/
theorem claim7_witness :
    (["img2.png", "img10.png"] : List String).Pairwise
        (fun f g => sortKeyD f ≤ sortKeyD g) ∧
      (((["img2.png", "img10.png"] : List String).filter
          fun f => isImageName f).Pairwise (fun f g => sortKeyD f ≠ sortKeyD g) →
        (["img2.png", "img10.png"] : List String).Pairwise
          (fun f g => sortKeyD f < sortKeyD g)) :=
  claim7_sorted ["img2.png", "img10.png"] false ["img2.png", "img10.png"]
    (by rfl)

/-- Claim C9, counterexample.  With an **empty** configured command
(`set_cmd` falsy — a legal `-c ""` configuration), an empty folder is not
detected at startup: `init_images` succeeds with an empty image list, so
`main` enters the periodic loop (the crash happens only inside the first
iteration, in `get_current_images`). -/
theorem claim9_counterexample :
    init_images (some []) false = some [] ∧
      get_current_images 0 36000 ([] : List ℕ) 13 = none :=
  ⟨by rfl, gci_nil 0 36000 13⟩

/-- Claim C9, amended: a missing folder always fails at startup, and an
empty folder or a folder with no image files fails at startup **provided**
a set-wallpaper command is configured (`set_cmd` truthy, which is the
default `feh --bg-scale {}`): the middle-image indexing
`image_paths[int(len(image_paths)/2)]` raises `IndexError` on the empty
selection before the loop is entered. -/
theorem claim9_startup (listing : Option (List String)) (sc : Bool) :
    (listing = none → init_images listing sc = none) ∧
      (∀ files, listing = some files →
        (files.filter fun f => isImageName f) = [] → sc = true →
        init_images listing sc = none) := by
  constructor
  · rintro rfl
    rfl
  · rintro files rfl hemp rfl
    have h0 : init_images (some files) true =
        (match sortedPaths (files.filter fun f => isImageName f) with
          | none => none
          | some image_paths =>
              if true = true ∧
                  (pyIndex image_paths ((image_paths.length / 2 : ℕ) : ℤ)).isNone = true
              then none
              else some image_paths) := by
      rfl
    rw [h0, hemp]
    rfl

/-- Witness for C9 (amended): a missing folder fails, and an empty folder
with the default (truthy) command fails. -/
theorem claim9_witness :
    init_images none true = none ∧ init_images (some []) true = none :=
  ⟨(claim9_startup none true).1 rfl,
    (claim9_startup (some []) true).2 [] rfl (by rfl) rfl⟩

/-- Claim C10: a directory entry is selected iff its name contains
`jpeg`, `jpg` or `png` **anywhere** (a three-way split exists — not only
as an extension); a selected name with no digit characters has an
undefined sort key (`int("")` raises `ValueError`), and its presence makes
`init_images` raise while computing the sort keys. -/
theorem claim10_selection_digitless (listing : List String) (sc : Bool)
    (f : String) (hmem : f ∈ listing) (himg : isImageName f = true)
    (hdig : digitsOf f = []) :
    (∀ g : String, isImageName g = true ↔
        ((∃ p q, g.data = p ++ "jpeg".data ++ q) ∨
         (∃ p q, g.data = p ++ "jpg".data ++ q) ∨
         (∃ p q, g.data = p ++ "png".data ++ q))) ∧
      sortKey f = none ∧ init_images (some listing) sc = none := by
  refine ⟨?_, ?_, ?_⟩
  · intro g
    unfold isImageName
    rw [Bool.or_eq_true, Bool.or_eq_true, containsSub_iff, containsSub_iff,
      containsSub_iff, or_assoc]
  · unfold sortKey
    rw [if_pos hdig]
  · have hmemf : f ∈ listing.filter (fun f => isImageName f) :=
      List.mem_filter.mpr ⟨hmem, himg⟩
    have hall :
        ((listing.filter fun f => isImageName f).all fun f => (sortKey f).isSome) = false := by
      rw [Bool.eq_false_iff]
      intro hall
      have := List.all_eq_true.mp hall f hmemf
      rw [show sortKey f = none from by unfold sortKey; rw [if_pos hdig]] at this
      simp at this
    show (match sortedPaths (listing.filter fun f => isImageName f) with
        | none => none
        | some image_paths =>
            if sc = true ∧
                (pyIndex image_paths ((image_paths.length / 2 : ℕ) : ℤ)).isNone = true
            then none
            else some image_paths) = none
    have hsp : sortedPaths (listing.filter fun f => isImageName f) = none := by
      unfold sortedPaths
      rw [if_neg (by rw [hall]; simp)]
    rw [hsp]

/-- Witness for C10: `a.png` is selected (it contains `png`), has no
digits, and aborts `init_images`. -/
theorem claim10_witness :
    (∀ g : String, isImageName g = true ↔
        ((∃ p q, g.data = p ++ "jpeg".data ++ q) ∨
         (∃ p q, g.data = p ++ "jpg".data ++ q) ∨
         (∃ p q, g.data = p ++ "png".data ++ q))) ∧
      sortKey "a.png" = none ∧ init_images (some ["a.png"]) false = none :=
  claim10_selection_digitless ["a.png"] false "a.png"
    (by simp) (by rfl) (by rfl)

/-! ## The blend step -/

/-- Modelled from the spec: `blend_images` (`src/set_wallpaper.py`, lines
62-68) delegates the pixel arithmetic to the external image library call
`Image.blend(img1, img2, amount)`, whose code is not part of this
repository; per the spec its contract is the per-pixel linear blend
`output = imageA * (1 - fraction) + imageB * fraction`.  Images are
modelled as maps from pixel index to a rational channel value; the save to
the temp path is an external side effect and is not modelled. -/
def blend_images (img1 img2 : ℕ → ℚ) (amount : ℚ) : ℕ → ℚ :=
  fun px => img1 px * (1 - amount) + img2 px * amount

/-- Claim C8: the blend is the per-pixel linear interpolation, so blending
an image with itself at any fraction in `[0, 1]` is the identity, and the
fractions 0 and 1 return the first and the second image respectively
(pixel-identical). -/
theorem claim8_blend (A B : ℕ → ℚ) (f : ℚ) (h0 : 0 ≤ f) (h1 : f ≤ 1) :
    blend_images A A f = A ∧ blend_images A B 0 = A ∧ blend_images A B 1 = B :=
  ⟨funext fun p => by unfold blend_images; ring,
    funext fun p => by unfold blend_images; ring,
    funext fun p => by unfold blend_images; ring⟩

/-- Witness for C8 at fraction `1/2` on two constant images. -/
theorem claim8_witness :
    blend_images (fun _ => (0 : ℚ)) (fun _ => 0) (1/2) = (fun _ => 0) ∧
      blend_images (fun _ => (0 : ℚ)) (fun _ => 1) 0 = (fun _ => 0) ∧
      blend_images (fun _ => (0 : ℚ)) (fun _ => 1) 1 = (fun _ => 1) := by
  have h := claim8_blend (fun _ => (0 : ℚ)) (fun _ => (1 : ℚ)) (1/2)
    (by norm_num) (by norm_num)
  exact ⟨h.1, h.2.1, h.2.2⟩

end DynWallpaper
